import Mathlib

/-!
Shallow embedding of `src/pattern_Iterator.py`.

The Python program defines a collection `CityAttractions` holding an
insertion-ordered dict from group names to item lists, and three iterators
over it: `SequentialIterator` (groups then items), `BusIterator` (group
names only) and `RandomWalkIterator` (like sequential, over a shuffled
copy of the key list).

Modelling decisions:
- a Python dict is an association list `List (String × List String)`;
  insertion order is the list order and `dict[key]` is `dictGet`;
- Python exceptions become `Except PyError`; `IndexError` is what
  `self._keys[i]` raises out of range, `KeyError` what `dict[key]` raises
  on a missing key.  `exhaustedIterator` is the error kind the spec asks
  for; the source never raises it, the constructor exists so that the two
  kinds can be compared;
- `random.shuffle` is the in-place Fisher–Yates loop of CPython
  (for i from len-1 down to 1: j = randbelow(i+1); swap x[i] x[j]),
  with the stream of random draws passed in as a `List Nat`, each draw
  reduced mod (i+1) exactly as `randbelow(i+1)` guarantees;
- `next` raises before it mutates any field, so the post-exception state
  of an iterator object equals its pre-call state; the step functions
  below return the unchanged state alongside the error.
-/

/-- Error kinds.  `indexError` and `keyError` are the Python exceptions the
source can raise; `exhaustedIterator` is the kind named by the spec, never
produced by the source. -/
inductive PyError where
  | indexError
  | keyError
  | exhaustedIterator
deriving DecidableEq, Repr

deriving instance DecidableEq for Except

/-- `d[k]` on an insertion-ordered dict represented as an association
list: the value of the first pair whose key equals `k`. -/
def dictGet (d : List (String × List String)) (k : String) : Option (List String) :=
  (d.find? (fun p => p.1 == k)).map (fun p => p.2)

/-- `list(d.keys())` on the association-list representation. -/
def dictKeys (d : List (String × List String)) : List String :=
  d.map (fun p => p.1)

/-- State of `SequentialIterator`: the collection reference, the key list
snapshot taken in `__init__`, and the two cursors. -/
structure SequentialIterator where
  attractions : List (String × List String)
  keys : List String
  current_attraction : Nat
  current_exhibit : Nat
deriving DecidableEq, Repr

/-- `SequentialIterator.__init__`. -/
def mkSequentialIterator (attractions : List (String × List String)) : SequentialIterator :=
  { attractions := attractions
    keys := dictKeys attractions
    current_attraction := 0
    current_exhibit := 0 }

/-- `SequentialIterator.has_next`: `self._current_attraction < len(self._keys)`. -/
def SequentialIterator.has_next (s : SequentialIterator) : Bool :=
  s.current_attraction < s.keys.length

/-- `SequentialIterator.next`.  Mirrors the source: index the key list
(raising `IndexError` out of range), look the key up in the dict, emit the
current exhibit if one remains, otherwise advance the group cursor, reset
the exhibit cursor and recurse when `has_next` still holds, else return
`None`. -/
def SequentialIterator.next (s : SequentialIterator) :
    Except PyError (Option String × SequentialIterator) :=
  match s.keys[s.current_attraction]? with
  | none => .error .indexError
  | some key =>
    match dictGet s.attractions key with
    | none => .error .keyError
    | some exhibits =>
      if h : s.current_exhibit < exhibits.length then
        .ok (some (key ++ ": " ++ exhibits.get ⟨s.current_exhibit, h⟩),
          { s with current_exhibit := s.current_exhibit + 1 })
      else
        if h2 : ({ s with current_attraction := s.current_attraction + 1,
                          current_exhibit := 0 } : SequentialIterator).has_next then
          SequentialIterator.next
            { s with current_attraction := s.current_attraction + 1, current_exhibit := 0 }
        else
          .ok (none, { s with current_attraction := s.current_attraction + 1,
                              current_exhibit := 0 })
termination_by s.keys.length - s.current_attraction
decreasing_by
  simp only [SequentialIterator.has_next, decide_eq_true_eq] at h2
  omega

/-- `SequentialIterator.next` with explicit recursion fuel: `none` when the
fuel runs out before the call completes.  Structural in the fuel, so the
kernel can evaluate it on concrete states; related to `next` by
`nextFuel_eq_next` below, which bounds the recursion depth. -/
def SequentialIterator.nextFuel :
    Nat → SequentialIterator → Option (Except PyError (Option String × SequentialIterator))
  | 0, _ => none
  | fuel + 1, s =>
    match s.keys[s.current_attraction]? with
    | none => some (.error .indexError)
    | some key =>
      match dictGet s.attractions key with
      | none => some (.error .keyError)
      | some exhibits =>
        if h : s.current_exhibit < exhibits.length then
          some (.ok (some (key ++ ": " ++ exhibits.get ⟨s.current_exhibit, h⟩),
            { s with current_exhibit := s.current_exhibit + 1 }))
        else
          if ({ s with current_attraction := s.current_attraction + 1,
                       current_exhibit := 0 } : SequentialIterator).has_next then
            SequentialIterator.nextFuel fuel
              { s with current_attraction := s.current_attraction + 1, current_exhibit := 0 }
          else
            some (.ok (none, { s with current_attraction := s.current_attraction + 1,
                                      current_exhibit := 0 }))

/-- The driver loop of `main` specialised to a sequential iterator:
`while iterator.has_next(): collect iterator.next()`, with enough fuel.
Each list entry is the outcome of one `next()` call. -/
def SequentialIterator.runFuel :
    Nat → SequentialIterator → List (Except PyError (Option String))
  | 0, _ => []
  | fuel + 1, s =>
    if s.has_next then
      match s.next with
      | .ok (v, s2) => .ok v :: SequentialIterator.runFuel fuel s2
      | .error e => [.error e]
    else []

/-- State of `BusIterator`: collection reference, key-list snapshot, one
flat cursor. -/
structure BusIterator where
  attractions : List (String × List String)
  keys : List String
  index : Nat
deriving DecidableEq, Repr

/-- `BusIterator.__init__`. -/
def mkBusIterator (attractions : List (String × List String)) : BusIterator :=
  { attractions := attractions
    keys := dictKeys attractions
    index := 0 }

/-- `BusIterator.has_next`: `self._index < len(self._keys)`. -/
def BusIterator.has_next (b : BusIterator) : Bool :=
  b.index < b.keys.length

/-- `BusIterator.next`: index the key list (raising `IndexError` out of
range), advance the cursor, return the bare key. -/
def BusIterator.next (b : BusIterator) : Except PyError (String × BusIterator) :=
  match b.keys[b.index]? with
  | none => .error .indexError
  | some key => .ok (key, { b with index := b.index + 1 })

/-- The driver loop of `main` specialised to a bus iterator. -/
def BusIterator.run (b : BusIterator) : List (Except PyError String) :=
  if h : b.has_next then
    match h2 : b.next with
    | .ok (v, b2) => .ok v :: BusIterator.run b2
    | .error e => [.error e]
  else []
termination_by b.keys.length - b.index
decreasing_by
  simp only [BusIterator.has_next, decide_eq_true_eq] at h
  simp only [BusIterator.next] at h2
  split at h2
  · simp at h2
  · rw [Except.ok.injEq, Prod.mk.injEq] at h2
    obtain ⟨-, h4⟩ := h2
    subst h4
    simp only
    omega

/-- One in-place swap `x[i], x[j] = x[j], x[i]` on a list; out-of-range
indices leave the list unchanged (they never occur in `listShuffle`). -/
def listSwap (l : List String) (i j : Nat) : List String :=
  match l[i]?, l[j]? with
  | some a, some b => (l.set i b).set j a
  | _, _ => l

/-- The loop body of CPython `random.shuffle`, counting `i` down:
`for i in reversed(range(1, len(x))): j = randbelow(i+1); swap x[i] x[j]`.
`rnd` supplies the random draws; `% (i + 1)` is the range `randbelow`
guarantees. -/
def fisherYatesAux (rnd : List Nat) (i : Nat) (l : List String) : List String :=
  match i with
  | 0 => l
  | k + 1 => fisherYatesAux rnd.tail k (listSwap l (k + 1) (rnd.headD 0 % (k + 2)))

/-- `random.shuffle(x)` as a function of the list and the random draws. -/
def listShuffle (l : List String) (rnd : List Nat) : List String :=
  fisherYatesAux rnd (l.length - 1) l

/-- State of `RandomWalkIterator`: identical shape to `SequentialIterator`;
the source duplicates the class. -/
structure RandomWalkIterator where
  attractions : List (String × List String)
  keys : List String
  current_attraction : Nat
  current_exhibit : Nat
deriving DecidableEq, Repr

/-- `RandomWalkIterator.__init__`: copies the key list and shuffles the
copy; `rnd` is the state of the `random` module. -/
def mkRandomWalkIterator (attractions : List (String × List String)) (rnd : List Nat) :
    RandomWalkIterator :=
  { attractions := attractions
    keys := listShuffle (dictKeys attractions) rnd
    current_attraction := 0
    current_exhibit := 0 }

/-- `RandomWalkIterator.has_next`: same text as the sequential one. -/
def RandomWalkIterator.has_next (r : RandomWalkIterator) : Bool :=
  r.current_attraction < r.keys.length

/-- `RandomWalkIterator.next`: the source duplicates
`SequentialIterator.next` verbatim. -/
def RandomWalkIterator.next (r : RandomWalkIterator) :
    Except PyError (Option String × RandomWalkIterator) :=
  match r.keys[r.current_attraction]? with
  | none => .error .indexError
  | some key =>
    match dictGet r.attractions key with
    | none => .error .keyError
    | some exhibits =>
      if h : r.current_exhibit < exhibits.length then
        .ok (some (key ++ ": " ++ exhibits.get ⟨r.current_exhibit, h⟩),
          { r with current_exhibit := r.current_exhibit + 1 })
      else
        if h2 : ({ r with current_attraction := r.current_attraction + 1,
                          current_exhibit := 0 } : RandomWalkIterator).has_next then
          RandomWalkIterator.next
            { r with current_attraction := r.current_attraction + 1, current_exhibit := 0 }
        else
          .ok (none, { r with current_attraction := r.current_attraction + 1,
                              current_exhibit := 0 })
termination_by r.keys.length - r.current_attraction
decreasing_by
  simp only [RandomWalkIterator.has_next, decide_eq_true_eq] at h2
  omega

/-- The driver loop of `main` specialised to a random-walk iterator. -/
def RandomWalkIterator.runFuel :
    Nat → RandomWalkIterator → List (Except PyError (Option String))
  | 0, _ => []
  | fuel + 1, r =>
    if r.has_next then
      match r.next with
      | .ok (v, r2) => .ok v :: RandomWalkIterator.runFuel fuel r2
      | .error e => [.error e]
    else []

/-- The result of `CityAttractions.create_iterator`: one of the three
concrete iterator kinds. -/
inductive AnyIterator where
  | seq (s : SequentialIterator)
  | bus (b : BusIterator)
  | rand (r : RandomWalkIterator)
deriving DecidableEq, Repr

/-- `CityAttractions.create_iterator(type_)`: `"bus"` and `"random_walk"`
select their iterators, everything else falls through to
`SequentialIterator`.  `rnd` is the `random` module state consumed when the
random-walk iterator shuffles. -/
def create_iterator (attractions : List (String × List String)) (type_ : String)
    (rnd : List Nat) : AnyIterator :=
  if type_ == "bus" then .bus (mkBusIterator attractions)
  else if type_ == "random_walk" then .rand (mkRandomWalkIterator attractions rnd)
  else .seq (mkSequentialIterator attractions)

/-- The default value of the `type_` parameter of `create_iterator`. -/
def create_iterator_default_type : String := "sequential"

/-- The collection hard-coded in `CityAttractions.__init__`. -/
def cityAttractions : List (String × List String) :=
  [("Эрмитаж", ["Картина 1", "Картина 2", "Статуя 1"]),
   ("Исаакиевский собор", ["Мозаика 1", "Люстра", "Витраж"]),
   ("Петропавловская крепость", ["Пушка", "Музей истории"])]

/-! ## Permutation facts about the shuffle -/

/-- Prepending the element stored at position `m` to a copy of the list
with position `m` overwritten by `x` is a permutation of `x :: xs`. -/
theorem cons_set_perm (xs : List String) (m : Nat) (x c : String)
    (h : xs[m]? = some c) : List.Perm (c :: xs.set m x) (x :: xs) := by
  induction xs generalizing m with
  | nil => simp at h
  | cons y t ih =>
    cases m with
    | zero =>
      simp only [List.getElem?_cons_zero, Option.some.injEq] at h
      subst h
      exact List.Perm.swap x y t
    | succ k =>
      simp only [List.getElem?_cons_succ] at h
      have h1 : List.Perm (c :: y :: t.set k x) (y :: c :: t.set k x) :=
        List.Perm.swap y c (t.set k x)
      have h3 : List.Perm (y :: c :: t.set k x) (y :: x :: t) :=
        List.Perm.cons y (ih k h)
      have h4 : List.Perm (y :: x :: t) (x :: y :: t) := List.Perm.swap x y t
      simpa using (h1.trans h3).trans h4

/-- Writing `l[j]` at position `i` and `l[i]` at position `j` permutes `l`. -/
theorem set_set_perm (l : List String) (i j : Nat) (a b : String)
    (hi : l[i]? = some a) (hj : l[j]? = some b) :
    List.Perm ((l.set i b).set j a) l := by
  induction l generalizing i j with
  | nil => simp at hi
  | cons x t ih =>
    cases i with
    | zero =>
      simp only [List.getElem?_cons_zero, Option.some.injEq] at hi
      subst hi
      cases j with
      | zero => simp
      | succ m =>
        simp only [List.getElem?_cons_succ] at hj
        simpa using cons_set_perm t m x b hj
    | succ n =>
      simp only [List.getElem?_cons_succ] at hi
      cases j with
      | zero =>
        simp only [List.getElem?_cons_zero, Option.some.injEq] at hj
        subst hj
        simpa using cons_set_perm t n x a hi
      | succ m =>
        simp only [List.getElem?_cons_succ] at hj
        simpa using List.Perm.cons x (ih n m hi hj)

/-- A single swap step permutes the list. -/
theorem listSwap_perm (l : List String) (i j : Nat) : List.Perm (listSwap l i j) l := by
  rcases h1 : l[i]? with _ | a
  · simp [listSwap, h1]
  · rcases h2 : l[j]? with _ | b
    · simp [listSwap, h1, h2]
    · simpa [listSwap, h1, h2] using set_set_perm l i j a b h1 h2

/-- The Fisher–Yates loop permutes the list. -/
theorem fisherYatesAux_perm (i : Nat) : ∀ (rnd : List Nat) (l : List String),
    List.Perm (fisherYatesAux rnd i l) l := by
  induction i with
  | zero => intro rnd l; simp [fisherYatesAux]
  | succ k ih =>
    intro rnd l
    exact (ih rnd.tail _).trans (listSwap_perm l (k + 1) (rnd.headD 0 % (k + 2)))

/-- `random.shuffle` produces a permutation of its input. -/
theorem listShuffle_perm (l : List String) (rnd : List Nat) :
    List.Perm (listShuffle l rnd) l :=
  fisherYatesAux_perm (l.length - 1) rnd l

/-! ## Behaviour of `SequentialIterator.next` -/

/-- Fuel exceeding the number of groups not yet passed is enough: the fuel
variant completes and agrees with `next`.  This bounds the recursion depth
of `next` by `keys.length - current_attraction`. -/
theorem nextFuel_eq_next (s : SequentialIterator) :
    ∀ (fuel : Nat), s.keys.length - s.current_attraction < fuel →
    s.nextFuel fuel = some s.next := by
  induction s using SequentialIterator.next.induct with
  | case1 s hk =>
    intro fuel hf
    match fuel with
    | n + 1 => simp [SequentialIterator.nextFuel, SequentialIterator.next, hk]
  | case2 s key hk hd =>
    intro fuel hf
    match fuel with
    | n + 1 => simp [SequentialIterator.nextFuel, SequentialIterator.next, hk, hd]
  | case3 s key hk exhibits hd hlt =>
    intro fuel hf
    match fuel with
    | n + 1 => simp [SequentialIterator.nextFuel, SequentialIterator.next, hk, hd, hlt]
  | case4 s key hk exhibits hd hge hn ih =>
    intro fuel hf
    match fuel with
    | n + 1 =>
      have hcur : s.current_attraction < s.keys.length :=
        (List.getElem?_eq_some.mp hk).1
      simp only [SequentialIterator.nextFuel, hk, hd, hge, dite_false, dif_neg,
        not_false_eq_true, hn, if_true, dite_true]
      rw [SequentialIterator.next.eq_def]
      simp only [hk, hd, hge, dif_neg, not_false_eq_true, hn, dite_true]
      exact ih n (by simp only at hf ⊢; omega)
  | case5 s key hk exhibits hd hge hn =>
    intro fuel hf
    match fuel with
    | n + 1 => simp [SequentialIterator.nextFuel, SequentialIterator.next, hk, hd, hge, hn]

/-- When `has_next` is false, `next` indexes the key list out of range and
raises `IndexError` before mutating anything. -/
theorem seq_next_error_of_exhausted (s : SequentialIterator) (h : s.has_next = false) :
    s.next = Except.error PyError.indexError := by
  simp only [SequentialIterator.has_next, decide_eq_false_iff_not, Nat.not_lt] at h
  rw [SequentialIterator.next.eq_def]
  rw [List.getElem?_eq_none h]

/-- A successful `next` call never touches the collection or the key list
and moves the group cursor monotonically, keeping it at most the group
count. -/
theorem seq_next_ok_bounds (s : SequentialIterator)
    (v : Option String) (s2 : SequentialIterator) (h : s.next = Except.ok (v, s2)) :
    s2.attractions = s.attractions ∧ s2.keys = s.keys ∧
    s.current_attraction ≤ s2.current_attraction ∧
    s2.current_attraction ≤ s2.keys.length := by
  induction s using SequentialIterator.next.induct generalizing v s2 with
  | case1 s hk =>
    rw [SequentialIterator.next.eq_def, hk] at h
    cases h
  | case2 s key hk hd =>
    rw [SequentialIterator.next.eq_def, hk] at h
    simp only [hd] at h
    cases h
  | case3 s key hk exhibits hd hlt =>
    have hcur : s.current_attraction < s.keys.length := (List.getElem?_eq_some.mp hk).1
    rw [SequentialIterator.next.eq_def, hk] at h
    simp only [hd, hlt, dite_true, dif_pos, Except.ok.injEq, Prod.mk.injEq] at h
    obtain ⟨-, h2⟩ := h
    subst h2
    simp only [and_self, true_and]
    omega
  | case4 s key hk exhibits hd hge hn ih =>
    rw [SequentialIterator.next.eq_def, hk] at h
    simp only [hd] at h
    rw [dif_neg hge, dif_pos hn] at h
    obtain ⟨ha, hkk, h1, h2⟩ := ih v s2 h
    simp only at ha hkk h1
    exact ⟨ha, hkk, by omega, h2⟩
  | case5 s key hk exhibits hd hge hn =>
    have hcur : s.current_attraction < s.keys.length := (List.getElem?_eq_some.mp hk).1
    rw [SequentialIterator.next.eq_def, hk] at h
    simp only [hd] at h
    rw [dif_neg hge, dif_neg hn, Except.ok.injEq, Prod.mk.injEq] at h
    obtain ⟨h1, h2⟩ := h
    subst h2
    refine ⟨rfl, rfl, Nat.le_succ _, ?_⟩
    simp only
    omega

/-- `next` yields the silent `None` only from a state where `has_next` was
still true, and it leaves the iterator exhausted. -/
theorem seq_next_ok_none (s : SequentialIterator) (s2 : SequentialIterator)
    (h : s.next = Except.ok (none, s2)) :
    s.has_next = true ∧ s2.has_next = false := by
  induction s using SequentialIterator.next.induct generalizing s2 with
  | case1 s hk =>
    rw [SequentialIterator.next.eq_def, hk] at h
    cases h
  | case2 s key hk hd =>
    rw [SequentialIterator.next.eq_def, hk] at h
    simp only [hd] at h
    cases h
  | case3 s key hk exhibits hd hlt =>
    rw [SequentialIterator.next.eq_def, hk] at h
    simp only [hd, hlt, dite_true, dif_pos, Except.ok.injEq, Prod.mk.injEq] at h
    obtain ⟨h1, -⟩ := h
    cases h1
  | case4 s key hk exhibits hd hge hn ih =>
    have hcur : s.current_attraction < s.keys.length := (List.getElem?_eq_some.mp hk).1
    rw [SequentialIterator.next.eq_def, hk] at h
    simp only [hd] at h
    rw [dif_neg hge, dif_pos hn] at h
    refine ⟨?_, (ih s2 h).2⟩
    simp only [SequentialIterator.has_next, decide_eq_true_eq]
    omega
  | case5 s key hk exhibits hd hge hn =>
    have hcur : s.current_attraction < s.keys.length := (List.getElem?_eq_some.mp hk).1
    rw [SequentialIterator.next.eq_def, hk] at h
    simp only [hd] at h
    rw [dif_neg hge, dif_neg hn, Except.ok.injEq, Prod.mk.injEq] at h
    obtain ⟨h1, h2⟩ := h
    subst h2
    simp only [SequentialIterator.has_next, decide_eq_true_eq, decide_eq_false_iff_not, Nat.not_lt] at hn ⊢
    constructor
    · omega
    · simpa using hn

/-! ## `RandomWalkIterator` mirrors `SequentialIterator` -/

/-- Forget which class an iterator state came from: the two structures
have the same fields because the source duplicates the class body. -/
def RandomWalkIterator.toSeq (r : RandomWalkIterator) : SequentialIterator :=
  { attractions := r.attractions, keys := r.keys,
    current_attraction := r.current_attraction, current_exhibit := r.current_exhibit }

/-- `has_next` agrees across the two duplicated classes. -/
theorem toSeq_has_next (r : RandomWalkIterator) :
    r.toSeq.has_next = r.has_next := rfl

/-- `next` agrees across the two duplicated classes, state por state. -/
theorem rw_next_toSeq (r : RandomWalkIterator) :
    SequentialIterator.next r.toSeq =
      r.next.map (fun p => (p.1, RandomWalkIterator.toSeq p.2)) := by
  induction r using RandomWalkIterator.next.induct with
  | case1 r hk =>
    rw [SequentialIterator.next.eq_def, RandomWalkIterator.next.eq_def]
    simp [RandomWalkIterator.toSeq, hk, Except.map]
  | case2 r key hk hd =>
    rw [SequentialIterator.next.eq_def, RandomWalkIterator.next.eq_def]
    simp [RandomWalkIterator.toSeq, hk, hd, Except.map]
  | case3 r key hk exhibits hd hlt =>
    rw [SequentialIterator.next.eq_def, RandomWalkIterator.next.eq_def]
    simp [RandomWalkIterator.toSeq, hk, hd, hlt, Except.map]
  | case4 r key hk exhibits hd hge hn ih =>
    rw [SequentialIterator.next.eq_def, RandomWalkIterator.next.eq_def]
    simp only [RandomWalkIterator.toSeq, hk, hd, Except.map]
    simp only [SequentialIterator.has_next, RandomWalkIterator.has_next] at hn ⊢
    rw [dif_neg hge, dif_neg hge, dif_pos hn, dif_pos hn]
    simpa [RandomWalkIterator.toSeq, Except.map] using ih
  | case5 r key hk exhibits hd hge hn =>
    rw [SequentialIterator.next.eq_def, RandomWalkIterator.next.eq_def]
    simp only [RandomWalkIterator.toSeq, hk, hd, Except.map]
    simp only [SequentialIterator.has_next, RandomWalkIterator.has_next] at hn ⊢
    rw [dif_neg hge, dif_neg hge, dif_neg hn, dif_neg hn]

/-- Exhausted random-walk iterators raise `IndexError` like sequential
ones: the class bodies are identical. -/
theorem rw_next_error_of_exhausted (r : RandomWalkIterator) (h : r.has_next = false) :
    r.next = Except.error PyError.indexError := by
  have hseq := seq_next_error_of_exhausted r.toSeq (by rw [toSeq_has_next, h])
  rw [rw_next_toSeq] at hseq
  cases hr : r.next with
  | error e =>
    rw [hr] at hseq
    simp only [Except.map, Except.error.injEq] at hseq
    rw [hseq]
  | ok p =>
    rw [hr] at hseq
    simp [Except.map] at hseq

/-- Frame and bound facts for `RandomWalkIterator.next`, inherited from
the sequential class through `toSeq`. -/
theorem rw_next_ok_bounds (r : RandomWalkIterator) (v : Option String) (r2 : RandomWalkIterator)
    (h : r.next = Except.ok (v, r2)) :
    r2.attractions = r.attractions ∧ r2.keys = r.keys ∧
    r.current_attraction ≤ r2.current_attraction ∧
    r2.current_attraction ≤ r2.keys.length := by
  have hseq := seq_next_ok_bounds r.toSeq v r2.toSeq (by rw [rw_next_toSeq, h]; rfl)
  exact hseq

/-- Silent `None` on a random-walk iterator also starts from a
`has_next = true` state and exhausts the iterator. -/
theorem rw_next_ok_none (r r2 : RandomWalkIterator) (h : r.next = Except.ok (none, r2)) :
    r.has_next = true ∧ r2.has_next = false := by
  have hseq := seq_next_ok_none r.toSeq r2.toSeq (by rw [rw_next_toSeq, h]; rfl)
  rwa [toSeq_has_next, toSeq_has_next] at hseq

/-! ## Evaluation helpers and the driver loop -/

/-- Evaluate `next` on a concrete state through the fuel variant. -/
theorem seq_next_eval (s : SequentialIterator)
    (x : Except PyError (Option String × SequentialIterator)) (fuel : Nat)
    (hf : s.keys.length - s.current_attraction < fuel)
    (hx : s.nextFuel fuel = some x) : s.next = x := by
  have h := nextFuel_eq_next s fuel hf
  rw [hx] at h
  exact (Option.some.inj h).symm

/-- One driver-loop step while `has_next` holds. -/
theorem seq_runFuel_cons (fuel : Nat) (s s2 : SequentialIterator) (v : Option String)
    (h1 : s.has_next = true) (h2 : s.next = Except.ok (v, s2)) :
    SequentialIterator.runFuel (fuel + 1) s =
      Except.ok v :: SequentialIterator.runFuel fuel s2 := by
  simp [SequentialIterator.runFuel, h1, h2]

/-- The driver loop stops as soon as `has_next` is false. -/
theorem seq_runFuel_nil (fuel : Nat) (s : SequentialIterator) (h : s.has_next = false) :
    SequentialIterator.runFuel fuel s = [] := by
  cases fuel <;> simp [SequentialIterator.runFuel, h]

/-- Invert a successful `BusIterator.next`. -/
theorem bus_next_ok (b : BusIterator) (v : String) (b2 : BusIterator)
    (h : b.next = Except.ok (v, b2)) :
    b.keys[b.index]? = some v ∧ b2 = { b with index := b.index + 1 } := by
  unfold BusIterator.next at h
  cases hk : b.keys[b.index]? with
  | none => rw [hk] at h; cases h
  | some key =>
    rw [hk] at h
    rw [Except.ok.injEq, Prod.mk.injEq] at h
    obtain ⟨h1, h2⟩ := h
    subst h1
    exact ⟨rfl, h2.symm⟩

/-- Exhausted bus iterators raise `IndexError`. -/
theorem bus_next_error_of_exhausted (b : BusIterator) (h : b.has_next = false) :
    b.next = Except.error PyError.indexError := by
  simp only [BusIterator.has_next, decide_eq_false_iff_not, Nat.not_lt] at h
  unfold BusIterator.next
  rw [List.getElem?_eq_none h]

/-- The bus driver loop produces exactly the keys from the cursor on, in
order, each a successful value. -/
theorem bus_run_eq (b : BusIterator) :
    b.run = (b.keys.drop b.index).map Except.ok := by
  induction b using BusIterator.run.induct with
  | case1 b h v b2 h2 ih =>
    rw [BusIterator.run.eq_def]
    rw [dif_pos h, h2]
    obtain ⟨hk, hb2⟩ := bus_next_ok b v b2 h2
    obtain ⟨hlt, hget⟩ := List.getElem?_eq_some.mp hk
    rw [List.drop_eq_getElem_cons hlt, hget, List.map_cons]
    subst hb2
    simp only at ih ⊢
    rw [ih]
  | case2 b h e h2 =>
    simp only [BusIterator.has_next, decide_eq_true_eq] at h
    unfold BusIterator.next at h2
    rw [List.getElem?_eq_getElem h] at h2
    cases h2
  | case3 b h =>
    rw [BusIterator.run.eq_def, dif_neg h]
    simp only [BusIterator.has_next, decide_eq_true_eq] at h
    rw [List.drop_eq_nil_of_le (by omega), List.map_nil]

/-! ## Call traces -/

/-- A call a consumer can make on an iterator object. -/
inductive IterOp where
  | opHasNext
  | opNext
deriving DecidableEq, Repr

/-- State after one call on a sequential iterator.  `has_next` only reads
the cursor; `next` raises before mutating, so on an error the object keeps
its pre-call state. -/
def SequentialIterator.applyOp (s : SequentialIterator) : IterOp → SequentialIterator
  | .opHasNext => s
  | .opNext =>
    match s.next with
    | .ok (_, s2) => s2
    | .error _ => s

/-- State after a sequence of calls on a sequential iterator. -/
def SequentialIterator.applyOps (s : SequentialIterator) (ops : List IterOp) :
    SequentialIterator :=
  ops.foldl SequentialIterator.applyOp s

/-- State after one call on a bus iterator. -/
def BusIterator.applyOp (b : BusIterator) : IterOp → BusIterator
  | .opHasNext => b
  | .opNext =>
    match b.next with
    | .ok (_, b2) => b2
    | .error _ => b

/-- State after a sequence of calls on a bus iterator. -/
def BusIterator.applyOps (b : BusIterator) (ops : List IterOp) : BusIterator :=
  ops.foldl BusIterator.applyOp b

/-- State after one call on a random-walk iterator. -/
def RandomWalkIterator.applyOp (r : RandomWalkIterator) : IterOp → RandomWalkIterator
  | .opHasNext => r
  | .opNext =>
    match r.next with
    | .ok (_, r2) => r2
    | .error _ => r

/-- State after a sequence of calls on a random-walk iterator. -/
def RandomWalkIterator.applyOps (r : RandomWalkIterator) (ops : List IterOp) :
    RandomWalkIterator :=
  ops.foldl RandomWalkIterator.applyOp r

/-- No call moves an exhausted sequential iterator. -/
theorem seq_applyOp_exhausted (s : SequentialIterator) (op : IterOp)
    (h : s.has_next = false) : s.applyOp op = s := by
  cases op with
  | opHasNext => rfl
  | opNext =>
    simp only [SequentialIterator.applyOp]
    rw [seq_next_error_of_exhausted s h]

/-- Exhaustion of a sequential iterator is permanent under any call trace. -/
theorem seq_applyOps_exhausted (s : SequentialIterator) (ops : List IterOp)
    (h : s.has_next = false) : (s.applyOps ops).has_next = false := by
  induction ops with
  | nil => exact h
  | cons op rest ih =>
    simp only [SequentialIterator.applyOps, List.foldl_cons] at ih ⊢
    rw [seq_applyOp_exhausted s op h]
    exact ih

/-- No call moves an exhausted bus iterator. -/
theorem bus_applyOp_exhausted (b : BusIterator) (op : IterOp)
    (h : b.has_next = false) : b.applyOp op = b := by
  cases op with
  | opHasNext => rfl
  | opNext =>
    simp only [BusIterator.applyOp]
    rw [bus_next_error_of_exhausted b h]

/-- Exhaustion of a bus iterator is permanent under any call trace. -/
theorem bus_applyOps_exhausted (b : BusIterator) (ops : List IterOp)
    (h : b.has_next = false) : (b.applyOps ops).has_next = false := by
  induction ops with
  | nil => exact h
  | cons op rest ih =>
    simp only [BusIterator.applyOps, List.foldl_cons] at ih ⊢
    rw [bus_applyOp_exhausted b op h]
    exact ih

/-- No call moves an exhausted random-walk iterator. -/
theorem rw_applyOp_exhausted (r : RandomWalkIterator) (op : IterOp)
    (h : r.has_next = false) : r.applyOp op = r := by
  cases op with
  | opHasNext => rfl
  | opNext =>
    simp only [RandomWalkIterator.applyOp]
    rw [rw_next_error_of_exhausted r h]

/-- Exhaustion of a random-walk iterator is permanent under any call
trace. -/
theorem rw_applyOps_exhausted (r : RandomWalkIterator) (ops : List IterOp)
    (h : r.has_next = false) : (r.applyOps ops).has_next = false := by
  induction ops with
  | nil => exact h
  | cons op rest ih =>
    simp only [RandomWalkIterator.applyOps, List.foldl_cons] at ih ⊢
    rw [rw_applyOp_exhausted r op h]
    exact ih

/-- No call, successful or not, changes the collection or the key order a
random-walk iterator works over. -/
theorem rw_applyOp_frame (r : RandomWalkIterator) (op : IterOp) :
    (r.applyOp op).attractions = r.attractions ∧ (r.applyOp op).keys = r.keys := by
  cases op with
  | opHasNext => exact ⟨rfl, rfl⟩
  | opNext =>
    simp only [RandomWalkIterator.applyOp]
    cases hr : r.next with
    | error e => exact ⟨rfl, rfl⟩
    | ok p =>
      obtain ⟨v, r2⟩ := p
      obtain ⟨ha, hkk, -, -⟩ := rw_next_ok_bounds r v r2 hr
      exact ⟨ha, hkk⟩

/-- `RandomWalkIterator.next` with explicit recursion fuel, mirroring
`SequentialIterator.nextFuel` for the duplicated class. -/
def RandomWalkIterator.nextFuel :
    Nat → RandomWalkIterator → Option (Except PyError (Option String × RandomWalkIterator))
  | 0, _ => none
  | fuel + 1, r =>
    match r.keys[r.current_attraction]? with
    | none => some (.error .indexError)
    | some key =>
      match dictGet r.attractions key with
      | none => some (.error .keyError)
      | some exhibits =>
        if h : r.current_exhibit < exhibits.length then
          some (.ok (some (key ++ ": " ++ exhibits.get ⟨r.current_exhibit, h⟩),
            { r with current_exhibit := r.current_exhibit + 1 }))
        else
          if ({ r with current_attraction := r.current_attraction + 1,
                       current_exhibit := 0 } : RandomWalkIterator).has_next then
            RandomWalkIterator.nextFuel fuel
              { r with current_attraction := r.current_attraction + 1, current_exhibit := 0 }
          else
            some (.ok (none, { r with current_attraction := r.current_attraction + 1,
                                      current_exhibit := 0 }))

/-- Fuel bound for the random-walk `next`: the recursion depth is at most
the number of groups not yet passed. -/
theorem rw_nextFuel_eq_next (r : RandomWalkIterator) :
    ∀ (fuel : Nat), r.keys.length - r.current_attraction < fuel →
    r.nextFuel fuel = some r.next := by
  induction r using RandomWalkIterator.next.induct with
  | case1 r hk =>
    intro fuel hf
    match fuel with
    | n + 1 => simp [RandomWalkIterator.nextFuel, RandomWalkIterator.next, hk]
  | case2 r key hk hd =>
    intro fuel hf
    match fuel with
    | n + 1 => simp [RandomWalkIterator.nextFuel, RandomWalkIterator.next, hk, hd]
  | case3 r key hk exhibits hd hlt =>
    intro fuel hf
    match fuel with
    | n + 1 => simp [RandomWalkIterator.nextFuel, RandomWalkIterator.next, hk, hd, hlt]
  | case4 r key hk exhibits hd hge hn ih =>
    intro fuel hf
    match fuel with
    | n + 1 =>
      have hcur : r.current_attraction < r.keys.length :=
        (List.getElem?_eq_some.mp hk).1
      simp only [RandomWalkIterator.nextFuel, hk, hd, hge, dite_false, dif_neg,
        not_false_eq_true, hn, if_true, dite_true]
      rw [RandomWalkIterator.next.eq_def]
      simp only [hk, hd, hge, dif_neg, not_false_eq_true, hn, dite_true]
      exact ih n (by simp only at hf ⊢; omega)
  | case5 r key hk exhibits hd hge hn =>
    intro fuel hf
    match fuel with
    | n + 1 => simp [RandomWalkIterator.nextFuel, RandomWalkIterator.next, hk, hd, hge, hn]

/-- Evaluate `RandomWalkIterator.next` on a concrete state through the
fuel variant. -/
theorem rw_next_eval (r : RandomWalkIterator)
    (x : Except PyError (Option String × RandomWalkIterator)) (fuel : Nat)
    (hf : r.keys.length - r.current_attraction < fuel)
    (hx : r.nextFuel fuel = some x) : r.next = x := by
  have h := rw_nextFuel_eq_next r fuel hf
  rw [hx] at h
  exact (Option.some.inj h).symm

/-- The random-walk driver loop coincides with the sequential one run on
the same state: the two classes are behaviourally identical. -/
theorem rw_runFuel_toSeq (fuel : Nat) : ∀ (r : RandomWalkIterator),
    RandomWalkIterator.runFuel fuel r = SequentialIterator.runFuel fuel r.toSeq := by
  induction fuel with
  | zero => intro r; rfl
  | succ n ih =>
    intro r
    simp only [RandomWalkIterator.runFuel, SequentialIterator.runFuel, toSeq_has_next]
    have hc := rw_next_toSeq r
    cases hr : r.next with
    | error e =>
      rw [hr] at hc
      simp only [Except.map] at hc
      rw [hc]
    | ok p =>
      obtain ⟨v, r2⟩ := p
      rw [hr] at hc
      simp only [Except.map] at hc
      rw [hc]
      by_cases hh : r.has_next
      · simp only [hh, if_true]
        rw [ih r2]
      · simp only [hh, Bool.false_eq_true, if_false]

/-! ## Claims -/

/-- C1: the spec requires `has_next` to be true iff a subsequent `next`
yields a value.  The code violates this: on the collection `{"B": []}` the
fresh sequential iterator answers `has_next = true`, yet `next` returns the
silent `None` (the latent defect §9 of the spec flags).  This theorem
evaluates the code at that failing input. -/
theorem claim_C1_code_bug :
    (mkSequentialIterator [("B", [])]).has_next = true ∧
    (mkSequentialIterator [("B", [])]).next =
      Except.ok (none, ⟨[("B", [])], ["B"], 1, 0⟩) := by
  constructor
  · decide
  · exact seq_next_eval _ _ 5 (by decide) (by decide)

/-- C2 counterexample: in a state where `has_next` is false, `next` fails
with `IndexError` from indexing the key list, not with the
`ExhaustedIterator` error kind the claim names. -/
theorem claim_C2_counterexample :
    (⟨[("A", ["x"])], ["A"], 1, 0⟩ : SequentialIterator).has_next = false ∧
    (⟨[("A", ["x"])], ["A"], 1, 0⟩ : SequentialIterator).next =
      Except.error PyError.indexError ∧
    (⟨[("A", ["x"])], ["A"], 1, 0⟩ : SequentialIterator).next ≠
      Except.error PyError.exhaustedIterator := by
  have h2 : (⟨[("A", ["x"])], ["A"], 1, 0⟩ : SequentialIterator).next =
      Except.error PyError.indexError :=
    seq_next_eval _ _ 5 (by decide) (by decide)
  refine ⟨by decide, h2, ?_⟩
  rw [h2]
  decide

/-- C2 (amended): for every strategy kind, calling `next` in a state where
`has_next` is false fails with an uncaught `IndexError` that propagates to
the caller — never silently swallowed and never a silent `None` in that
state. -/
theorem claim_C2_amended_thm :
    (∀ s : SequentialIterator, s.has_next = false →
        s.next = Except.error PyError.indexError) ∧
    (∀ b : BusIterator, b.has_next = false →
        b.next = Except.error PyError.indexError) ∧
    (∀ r : RandomWalkIterator, r.has_next = false →
        r.next = Except.error PyError.indexError) :=
  ⟨seq_next_error_of_exhausted, bus_next_error_of_exhausted, rw_next_error_of_exhausted⟩

/-- Witness for the amended C2 at concrete exhausted states of all three
kinds. -/
theorem claim_C2_amended_witness :
    (⟨[("A", ["x"])], ["A"], 1, 1⟩ : SequentialIterator).next =
      Except.error PyError.indexError ∧
    (⟨[("A", ["x"])], ["A"], 1⟩ : BusIterator).next =
      Except.error PyError.indexError ∧
    (⟨[("A", ["x"])], ["A"], 1, 1⟩ : RandomWalkIterator).next =
      Except.error PyError.indexError :=
  ⟨claim_C2_amended_thm.1 _ (by decide),
   claim_C2_amended_thm.2.1 _ (by decide),
   claim_C2_amended_thm.2.2 _ (by decide)⟩

/-- C3: the spec scenario `{"A": ["x","y"], "B": []}` should give the
consumer exactly the two formatted values.  The code gives three produced
values: the driver loop sees `has_next` still true after `"A: y"` and the
third `next()` call returns the silent `None`.  This theorem evaluates the
driver loop of `main` at that input. -/
theorem claim_C3_code_bug :
    SequentialIterator.runFuel 10 (mkSequentialIterator [("A", ["x", "y"]), ("B", [])]) =
      [Except.ok (some "A: x"), Except.ok (some "A: y"), Except.ok none] := by
  have h0 : (mkSequentialIterator [("A", ["x", "y"]), ("B", [])]).next =
      Except.ok (some "A: x", ⟨[("A", ["x", "y"]), ("B", [])], ["A", "B"], 0, 1⟩) :=
    seq_next_eval _ _ 5 (by decide) (by decide)
  have h1 : (⟨[("A", ["x", "y"]), ("B", [])], ["A", "B"], 0, 1⟩ : SequentialIterator).next =
      Except.ok (some "A: y", ⟨[("A", ["x", "y"]), ("B", [])], ["A", "B"], 0, 2⟩) :=
    seq_next_eval _ _ 5 (by decide) (by decide)
  have h2 : (⟨[("A", ["x", "y"]), ("B", [])], ["A", "B"], 0, 2⟩ : SequentialIterator).next =
      Except.ok (none, ⟨[("A", ["x", "y"]), ("B", [])], ["A", "B"], 2, 0⟩) :=
    seq_next_eval _ _ 5 (by decide) (by decide)
  rw [show (10 : Nat) = 9 + 1 from rfl, seq_runFuel_cons 9 _ _ _ (by decide) h0]
  rw [show (9 : Nat) = 8 + 1 from rfl, seq_runFuel_cons 8 _ _ _ (by decide) h1]
  rw [show (8 : Nat) = 7 + 1 from rfl, seq_runFuel_cons 7 _ _ _ (by decide) h2]
  rw [seq_runFuel_nil 7 _ (by decide)]

/-- C4: the bus strategy visits exactly the group names, in insertion
order — one per group, zero-item groups included; `has_next` is true
exactly while the cursor is below the group count; each `next` returns the
key at the cursor and advances the flat cursor by one. -/
theorem claim_C4 :
    (∀ a : List (String × List String),
        (mkBusIterator a).run = (dictKeys a).map Except.ok) ∧
    (∀ b : BusIterator, b.has_next = true ↔ b.index < b.keys.length) ∧
    (∀ (b : BusIterator) (k : String), b.keys[b.index]? = some k →
        b.next = Except.ok (k, { b with index := b.index + 1 })) := by
  refine ⟨?_, ?_, ?_⟩
  · intro a
    have h := bus_run_eq (mkBusIterator a)
    simpa [mkBusIterator] using h
  · intro b
    simp [BusIterator.has_next]
  · intro b k hk
    unfold BusIterator.next
    rw [hk]

/-- Witness for C4 on the spec scenario `{"A": ["x"], "B": []}` and a
concrete cursor state. -/
theorem claim_C4_witness :
    (mkBusIterator [("A", ["x"]), ("B", [])]).run =
      [Except.ok "A", Except.ok "B"] ∧
    ((⟨[], ["A"], 0⟩ : BusIterator).has_next = true ↔ 0 < 1) ∧
    (⟨[], ["A"], 0⟩ : BusIterator).next = Except.ok ("A", ⟨[], ["A"], 1⟩) :=
  ⟨claim_C4.1 [("A", ["x"]), ("B", [])],
   claim_C4.2.1 ⟨[], ["A"], 0⟩,
   claim_C4.2.2 ⟨[], ["A"], 0⟩ "A" (by decide)⟩

/-- C5: the factory defaults to the sequential kind, the tag of the
randomly-permuted strategy (the spec enum's `random`) is the code string
`"random_walk"`, and every tag other than `"bus"` and `"random_walk"` —
including the literal string `"random"` — falls through to the sequential
strategy instead of failing. -/
theorem claim_C5 :
    (∀ (a : List (String × List String)) (rnd : List Nat),
        create_iterator a create_iterator_default_type rnd =
          AnyIterator.seq (mkSequentialIterator a)) ∧
    (∀ (a : List (String × List String)) (rnd : List Nat),
        create_iterator a "bus" rnd = AnyIterator.bus (mkBusIterator a)) ∧
    (∀ (a : List (String × List String)) (rnd : List Nat),
        create_iterator a "random_walk" rnd =
          AnyIterator.rand (mkRandomWalkIterator a rnd)) ∧
    (∀ (a : List (String × List String)) (rnd : List Nat) (t : String),
        t ≠ "bus" → t ≠ "random_walk" →
        create_iterator a t rnd = AnyIterator.seq (mkSequentialIterator a)) := by
  refine ⟨?_, ?_, ?_, ?_⟩
  · intro a rnd; rfl
  · intro a rnd; rfl
  · intro a rnd; rfl
  · intro a rnd t h1 h2
    simp [create_iterator, h1, h2]

/-- Witness for C5: the literal tag `"random"` (not a code tag) falls back
to the sequential strategy, and the default tag selects it too. -/
theorem claim_C5_witness :
    create_iterator cityAttractions "random" [] =
      AnyIterator.seq (mkSequentialIterator cityAttractions) ∧
    create_iterator cityAttractions create_iterator_default_type [] =
      AnyIterator.seq (mkSequentialIterator cityAttractions) :=
  ⟨claim_C5.2.2.2 cityAttractions [] "random" (by decide) (by decide),
   claim_C5.1 cityAttractions []⟩

/-- C6: `has_next` is a pure read — calling it changes nothing, so
repeated calls return the same boolean — and for every kind, once
`has_next` is false it stays false after any further calls (`next`
raises before mutating, so exhaustion is permanent). -/
theorem claim_C6 :
    (∀ s : SequentialIterator, s.applyOp IterOp.opHasNext = s) ∧
    (∀ (s : SequentialIterator) (ops : List IterOp), s.has_next = false →
        (s.applyOps ops).has_next = false) ∧
    (∀ b : BusIterator, b.applyOp IterOp.opHasNext = b) ∧
    (∀ (b : BusIterator) (ops : List IterOp), b.has_next = false →
        (b.applyOps ops).has_next = false) ∧
    (∀ r : RandomWalkIterator, r.applyOp IterOp.opHasNext = r) ∧
    (∀ (r : RandomWalkIterator) (ops : List IterOp), r.has_next = false →
        (r.applyOps ops).has_next = false) :=
  ⟨fun _ => rfl, seq_applyOps_exhausted, fun _ => rfl, bus_applyOps_exhausted,
   fun _ => rfl, rw_applyOps_exhausted⟩

/-- Witness for C6 on concrete exhausted iterators of each kind. -/
theorem claim_C6_witness :
    ((mkSequentialIterator []).applyOps [IterOp.opNext, IterOp.opHasNext]).has_next = false ∧
    ((mkBusIterator []).applyOps [IterOp.opNext]).has_next = false ∧
    ((mkRandomWalkIterator [] []).applyOps [IterOp.opNext]).has_next = false :=
  ⟨claim_C6.2.1 _ _ (by decide),
   claim_C6.2.2.2.1 _ _ (by decide),
   claim_C6.2.2.2.2.2 _ _ (by decide)⟩

/-- C7: constructing a random strategy shuffles only the private copy of
the key list — the visitation order is a permutation of the collection's
group names, the stored collection is the untouched original, and no
subsequent call changes the collection reference or the chosen order. -/
theorem claim_C7 :
    (∀ (a : List (String × List String)) (rnd : List Nat),
        List.Perm (mkRandomWalkIterator a rnd).keys (dictKeys a)) ∧
    (∀ (a : List (String × List String)) (rnd : List Nat),
        (mkRandomWalkIterator a rnd).attractions = a) ∧
    (∀ (r : RandomWalkIterator) (op : IterOp),
        (r.applyOp op).attractions = r.attractions ∧
        (r.applyOp op).keys = r.keys) :=
  ⟨fun a rnd => listShuffle_perm (dictKeys a) rnd,
   fun _ _ => rfl,
   rw_applyOp_frame⟩

/-- C8: for every kind, `next` on an exhausted iterator raises an
`IndexError` from indexing the key list out of range — not a silent
`None`; the silent `None` arises only from a call that starts with
`has_next` true and leaves the iterator exhausted. -/
theorem claim_C8 :
    (∀ s : SequentialIterator, s.has_next = false →
        s.next = Except.error PyError.indexError) ∧
    (∀ b : BusIterator, b.has_next = false →
        b.next = Except.error PyError.indexError) ∧
    (∀ r : RandomWalkIterator, r.has_next = false →
        r.next = Except.error PyError.indexError) ∧
    (∀ s s2 : SequentialIterator, s.next = Except.ok (none, s2) →
        s.has_next = true ∧ s2.has_next = false) ∧
    (∀ r r2 : RandomWalkIterator, r.next = Except.ok (none, r2) →
        r.has_next = true ∧ r2.has_next = false) :=
  ⟨seq_next_error_of_exhausted, bus_next_error_of_exhausted, rw_next_error_of_exhausted,
   seq_next_ok_none, rw_next_ok_none⟩

/-- Witness for C8 at concrete exhausted states and a concrete silent-None
call. -/
theorem claim_C8_witness :
    (⟨[("B", [])], ["B"], 1, 0⟩ : SequentialIterator).next =
      Except.error PyError.indexError ∧
    (⟨[("B", [])], ["B"], 1⟩ : BusIterator).next =
      Except.error PyError.indexError ∧
    (⟨[("B", [])], ["B"], 1, 0⟩ : RandomWalkIterator).next =
      Except.error PyError.indexError ∧
    ((mkSequentialIterator [("B", [])]).has_next = true ∧
      (⟨[("B", [])], ["B"], 1, 0⟩ : SequentialIterator).has_next = false) ∧
    ((mkRandomWalkIterator [("B", [])] []).has_next = true ∧
      (⟨[("B", [])], ["B"], 1, 0⟩ : RandomWalkIterator).has_next = false) :=
  ⟨claim_C8.1 _ (by decide),
   claim_C8.2.1 _ (by decide),
   claim_C8.2.2.1 _ (by decide),
   claim_C8.2.2.2.1 _ _ (seq_next_eval _ _ 5 (by decide) (by decide)),
   claim_C8.2.2.2.2 _ _ (rw_next_eval _ _ 5 (by decide) (by decide))⟩

/-- C9: the duplicated classes are extensionally equal: `has_next` and
`next` commute with the field-for-field conversion `toSeq`, the driver
loops coincide on equal states, and a random strategy equals the
sequential machine run over the shuffled key ordering. -/
theorem claim_C9 :
    (∀ r : RandomWalkIterator, r.toSeq.has_next = r.has_next) ∧
    (∀ r : RandomWalkIterator,
        SequentialIterator.next r.toSeq =
          r.next.map (fun p => (p.1, RandomWalkIterator.toSeq p.2))) ∧
    (∀ (fuel : Nat) (r : RandomWalkIterator),
        RandomWalkIterator.runFuel fuel r =
          SequentialIterator.runFuel fuel r.toSeq) ∧
    (∀ (a : List (String × List String)) (rnd : List Nat) (fuel : Nat),
        RandomWalkIterator.runFuel fuel (mkRandomWalkIterator a rnd) =
          SequentialIterator.runFuel fuel
            ⟨a, listShuffle (dictKeys a) rnd, 0, 0⟩) := by
  refine ⟨toSeq_has_next, rw_next_toSeq, rw_runFuel_toSeq, ?_⟩
  intro a rnd fuel
  exact rw_runFuel_toSeq fuel (mkRandomWalkIterator a rnd)

/-- C10: every `next` call terminates — its self-recursion depth is
bounded by the number of groups not yet passed, so fuel
`keys.length - cursor + 1` always suffices — and each successful call
moves the group cursor monotonically, keeping it between 0 (trivially, a
natural number) and the group count. -/
theorem claim_C10 :
    (∀ s : SequentialIterator,
        s.nextFuel (s.keys.length - s.current_attraction + 1) = some s.next) ∧
    (∀ r : RandomWalkIterator,
        r.nextFuel (r.keys.length - r.current_attraction + 1) = some r.next) ∧
    (∀ (s : SequentialIterator) (v : Option String) (s2 : SequentialIterator),
        s.next = Except.ok (v, s2) →
        s.current_attraction ≤ s2.current_attraction ∧
        s2.current_attraction ≤ s2.keys.length) ∧
    (∀ (r : RandomWalkIterator) (v : Option String) (r2 : RandomWalkIterator),
        r.next = Except.ok (v, r2) →
        r.current_attraction ≤ r2.current_attraction ∧
        r2.current_attraction ≤ r2.keys.length) := by
  refine ⟨?_, ?_, ?_, ?_⟩
  · intro s; exact nextFuel_eq_next s _ (by omega)
  · intro r; exact rw_nextFuel_eq_next r _ (by omega)
  · intro s v s2 h
    obtain ⟨-, -, h1, h2⟩ := seq_next_ok_bounds s v s2 h
    exact ⟨h1, h2⟩
  · intro r v r2 h
    obtain ⟨-, -, h1, h2⟩ := rw_next_ok_bounds r v r2 h
    exact ⟨h1, h2⟩

/-- Witness for C10 at a concrete one-group collection. -/
theorem claim_C10_witness :
    (mkSequentialIterator [("A", ["x"])]).nextFuel 2 =
      some ((mkSequentialIterator [("A", ["x"])]).next) ∧
    (mkRandomWalkIterator [("A", ["x"])] []).nextFuel 2 =
      some ((mkRandomWalkIterator [("A", ["x"])] []).next) ∧
    ((0 : Nat) ≤ 0 ∧ (0 : Nat) ≤ 1) ∧
    ((0 : Nat) ≤ 0 ∧ (0 : Nat) ≤ 1) :=
  ⟨claim_C10.1 (mkSequentialIterator [("A", ["x"])]),
   claim_C10.2.1 (mkRandomWalkIterator [("A", ["x"])] []),
   claim_C10.2.2.1 (mkSequentialIterator [("A", ["x"])]) (some "A: x")
     ⟨[("A", ["x"])], ["A"], 0, 1⟩ (seq_next_eval _ _ 5 (by decide) (by decide)),
   claim_C10.2.2.2 (mkRandomWalkIterator [("A", ["x"])] []) (some "A: x")
     ⟨[("A", ["x"])], ["A"], 0, 1⟩ (rw_next_eval _ _ 5 (by decide) (by decide))⟩
